import Mathlib

/-!
Verification of the OmniTool TOTP core against its natural-language
specification.  The definitions below are a shallow embedding of
`src/modules/totp.js` (Base32 codec, TOTP engine, otpauth-URI parser) and of
the account registry in the storage module.  JavaScript numbers that are used
as non-negative integers are modelled as `Nat`; `parseInt` results that may be
`NaN` are modelled as `Option Int` (`none` = `NaN`); fallible operations
return `Except`/`Option`.  External platform primitives (HMAC-SHA1, the
WHATWG `URL` parser, `decodeURIComponent`) are not part of the repository;
HMAC is kept abstract as a function parameter, and the URL machinery is
modelled explicitly for the ASCII subset the parser exercises.
-/

namespace Omnitool

/-! ## Base32 codec (`base32Decode`, src/modules/totp.js lines 16-48) -/

/-- The RFC 4648 Base32 alphabet, `BASE32_CHARS` in the source. -/
def BASE32_CHARS : List Char := "ABCDEFGHIJKLMNOPQRSTUVWXYZ234567".data

/-- The character class of the JavaScript regular expression `\s`: the
ECMAScript WhiteSpace and LineTerminator sets — tab, LF, VT, FF, CR, space,
no-break space U+00A0, Ogham space mark U+1680, the spaces U+2000–U+200A,
line separator U+2028, paragraph separator U+2029, narrow no-break space
U+202F, medium mathematical space U+205F, ideographic space U+3000 and
ZWNBSP/BOM U+FEFF. -/
def isJsWhitespace (c : Char) : Bool :=
  c == ' ' || c == '\t' || c == '\n' || c == '\r' || c == '\x0b' || c == '\x0c' ||
    c.toNat == 0x00A0 || c.toNat == 0x1680 ||
    (0x2000 ≤ c.toNat && c.toNat ≤ 0x200A) ||
    c.toNat == 0x2028 || c.toNat == 0x2029 || c.toNat == 0x202F ||
    c.toNat == 0x205F || c.toNat == 0x3000 || c.toNat == 0xFEFF

/-- Modelled from the spec: the platform `String.prototype.toUpperCase`
(locale-insensitive Unicode Default Case Conversion), a language built-in not
in src/, as the per-character full uppercase mapping.  ASCII letters map
exactly.  The only non-ASCII code points whose full uppercase image lies
entirely within `A–Z` are mapped exactly as well: long s U+017F → S, dotless
i U+0131 → I, sharp s U+00DF → SS, and the Latin ligatures U+FB00–U+FB06 →
FF, FI, FL, FFI, FFL, ST, ST.  Every other character is kept unchanged: its
true uppercase image always contains at least one character outside the
Base32 alphabet (Unicode case mappings never produce `2–7` or `=`, and every
remaining special casing — ʼN for U+0149, combining-mark expansions, Greek,
Armenian — includes a non-`A–Z` character), so the model accepts and rejects
exactly the inputs the program does and decodes accepted inputs to the same
bytes; for a rejected non-ASCII character it reports the character in its
original case. -/
def jsToUpperCase (c : Char) : List Char :=
  if 'a' ≤ c ∧ c ≤ 'z' then [Char.toUpper c]
  else if c.toNat == 0x017F then ['S']
  else if c.toNat == 0x0131 then ['I']
  else if c.toNat == 0x00DF then ['S', 'S']
  else if c.toNat == 0xFB00 then ['F', 'F']
  else if c.toNat == 0xFB01 then ['F', 'I']
  else if c.toNat == 0xFB02 then ['F', 'L']
  else if c.toNat == 0xFB03 then ['F', 'F', 'I']
  else if c.toNat == 0xFB04 then ['F', 'F', 'L']
  else if c.toNat == 0xFB05 then ['S', 'T']
  else if c.toNat == 0xFB06 then ['S', 'T']
  else [c]

/-- Remove the trailing run of `=` characters, the `replace(/=+$/, '')` step. -/
def stripTrailingPadding (l : List Char) : List Char :=
  (l.reverse.dropWhile (· == '=')).reverse

/-- Input normalization of `base32Decode`: strip whitespace, uppercase,
strip trailing padding (source lines 17-21, in that order).  String-level
`toUpperCase()` is the concatenation of the per-character full uppercase
mappings — the conversion is context-free, so mapping and flattening is
exact. -/
def b32Normalize (s : String) : List Char :=
  stripTrailingPadding (((s.data.filter (fun c => !isJsWhitespace c)).map jsToUpperCase).flatten)

/-- Model of `String.prototype.indexOf` on a character: index of the first
occurrence, `none` for `-1`. -/
def charIndexAux (c : Char) : List Char → Nat → Option Nat
  | [], _ => none
  | x :: xs, i => if x == c then some i else charIndexAux c xs (i + 1)

/-- `BASE32_CHARS.indexOf(char)` from source line 32. -/
def charIndex (c : Char) : Option Nat :=
  charIndexAux c BASE32_CHARS 0

/-- Error raised by the codec (`Invalid Base32 character: ${char}`), carrying
the offending character. -/
inductive Base32Error where
  | invalidChar (c : Char)
deriving DecidableEq

/-- The decoding loop of `base32Decode` (source lines 30-45): accumulate five
bits per character, emit a byte whenever at least eight bits are buffered.
In the source `value` lives in a 32-bit register; only its low twelve bits
ever reach the output window `(value >>> (bits - 8)) & 0xff`, so the
unbounded `Nat` accumulator yields the same bytes. -/
def b32DecodeLoop : List Char → Nat → Nat → List Nat → Except Base32Error (List Nat)
  | [], _, _, out => .ok out.reverse
  | c :: rest, bits, value, out =>
    match charIndex c with
    | none => .error (.invalidChar c)
    | some ci =>
      let value' := (value <<< 5) ||| ci
      let bits' := bits + 5
      if 8 ≤ bits' then
        b32DecodeLoop rest (bits' - 8) value' (((value' >>> (bits' - 8)) &&& 0xff) :: out)
      else
        b32DecodeLoop rest bits' value' out

/-- `base32Decode` from src/modules/totp.js: normalize, then decode. -/
def base32Decode (s : String) : Except Base32Error (List Nat) :=
  b32DecodeLoop (b32Normalize s) 0 0 []

/-! ## TOTP engine (`generateTOTP`, src/modules/totp.js lines 55-120) -/

/-- `numberToBytes` (source lines 55-62): the 8-byte big-endian encoding of a
non-negative integer, `bytes[i] = num & 0xff` with `num = floor(num / 256)`
walking from index 7 down to 0. -/
def numberToBytes (num : Nat) : List Nat :=
  (List.range 8).map (fun i => num / 256 ^ (7 - i) % 256)

/-- Dynamic truncation (source lines 110-115): `offset` is the low nibble of
the last digest byte; four bytes from `offset` are combined big-endian with
the top bit of the first masked off.  Out-of-range reads (`undefined` in
JavaScript, coerced to 0 by the bit operations) are modelled by `getD _ 0`. -/
def dynamicTruncate (hmac : List Nat) : Nat :=
  let offset := hmac.getD (hmac.length - 1) 0 &&& 0x0f
  ((hmac.getD offset 0 &&& 0x7f) <<< 24) |||
    ((hmac.getD (offset + 1) 0 &&& 0xff) <<< 16) |||
    ((hmac.getD (offset + 2) 0 &&& 0xff) <<< 8) |||
    (hmac.getD (offset + 3) 0 &&& 0xff)

/-- Decimal digit character for a value below ten. -/
def decDigit (d : Nat) : Char := Char.ofNat (48 + d)

/-- Worker for `natToDecimal`; the fuel argument (any bound above the value)
only makes the recursion structural. -/
def natToDecimalCore : Nat → Nat → List Char
  | 0, _ => []
  | fuel + 1, n =>
    if n < 10 then [decDigit n]
    else natToDecimalCore fuel (n / 10) ++ [decDigit (n % 10)]

/-- Model of `Number.prototype.toString()` on a non-negative integer: the
usual most-significant-first decimal numeral, with no leading zeros. -/
def natToDecimal (n : Nat) : List Char := natToDecimalCore (n + 1) n

/-- Model of `String.prototype.padStart(targetLen, c)`. -/
def padStart (l : List Char) (targetLen : Nat) (c : Char) : List Char :=
  List.replicate (targetLen - l.length) c ++ l

/-- Numeric value of a list of decimal digit characters (the reading back of
`toString`), used to state what the produced code denotes. -/
def listToNat (l : List Char) : Nat :=
  l.foldl (fun a c => 10 * a + (c.toNat - 48)) 0

/-- Options bag of `generateTOTP` with the source's defaults
(`period = 30`, `digits = 6`). -/
structure TotpOptions where
  period : Nat := 30
  digits : Nat := 6
  timestamp : Nat
deriving DecidableEq

/-- `generateTOTP` from src/modules/totp.js lines 92-120.  The HMAC-SHA1
primitive is an external collaborator (`crypto.subtle`), passed in as the
function `hmacF`.  The step counter `Math.floor(timestamp / 1000 / period)`
is the floor of the real quotient, which for non-negative integers is the
iterated `Nat` division used here. -/
def generateTOTP (hmacF : List Nat → List Nat → List Nat) (secret : String)
    (opts : TotpOptions) : Except Base32Error String :=
  match base32Decode secret with
  | .error e => .error e
  | .ok key =>
    let counter := opts.timestamp / 1000 / opts.period
    let counterBytes := numberToBytes counter
    let hmac := hmacF key counterBytes
    let binary := dynamicTruncate hmac
    let otp := binary % 10 ^ opts.digits
    .ok ⟨padStart (natToDecimal otp) opts.digits '0'⟩

/-- `getRemainingSeconds` (source lines 127-130): `period - (now % period)`
where `now` is the current Unix time in whole seconds. -/
def getRemainingSeconds (now period : Nat) : Nat :=
  period - now % period

/-- `formatOtp` (source lines 189-192): split at the floor midpoint with a
single space. -/
def formatOtp (code : String) : String :=
  let mid := code.data.length / 2
  ⟨code.data.take mid ++ ' ' :: code.data.drop mid⟩

/-- A constant all-zero 20-byte digest, standing in for HMAC-SHA1 where a
concrete collaborator is needed. -/
def zeroHmac : List Nat → List Nat → List Nat := fun _ _ => List.replicate 20 0

/-- Dynamic truncation exactly as the claim words it: `offset` from
`digest[19]`, four bytes from `offset`, first masked with `0x7F`, combined
big-endian arithmetically.  Stated separately from `dynamicTruncate` so the
two can be compared. -/
def claimBinary (digest : List Nat) : Nat :=
  let offset := digest.getD 19 0 &&& 0x0f
  (digest.getD offset 0 &&& 0x7f) * 2 ^ 24 + digest.getD (offset + 1) 0 * 2 ^ 16 +
    digest.getD (offset + 2) 0 * 2 ^ 8 + digest.getD (offset + 3) 0

/-! ## otpauth URI parser (`parseOtpAuthUri`, src/modules/totp.js lines 137-174) -/

/-- Hexadecimal digit value. -/
def hexVal (c : Char) : Option Nat :=
  if '0' ≤ c ∧ c ≤ '9' then some (c.toNat - 48)
  else if 'A' ≤ c ∧ c ≤ 'F' then some (c.toNat - 55)
  else if 'a' ≤ c ∧ c ≤ 'f' then some (c.toNat - 87)
  else none

/-- Modelled from the spec: the platform `decodeURIComponent`, an external
collaborator not in src/.  A `%` not followed by two hex digits raises
`URIError` (modelled `none`); decoded bytes are taken as code points (the
parser only ever meets ASCII input, so UTF-8 recombination is not modelled). -/
def percentDecodeStrict : List Char → Option (List Char)
  | [] => some []
  | ['%'] => none
  | ['%', _] => none
  | '%' :: h1 :: h2 :: rest =>
    match hexVal h1, hexVal h2 with
    | some a, some b => (percentDecodeStrict rest).map (fun t => Char.ofNat (16 * a + b) :: t)
    | _, _ => none
  | c :: rest => (percentDecodeStrict rest).map (c :: ·)

/-- Modelled from the spec: `application/x-www-form-urlencoded` value decoding
as done by the platform `URLSearchParams` (external collaborator not in
src/): `+` becomes a space, valid `%XX` escapes are decoded, malformed
escapes are kept literally, nothing ever fails. -/
def formDecode : List Char → List Char
  | [] => []
  | '+' :: rest => ' ' :: formDecode rest
  | '%' :: h1 :: h2 :: rest =>
    match hexVal h1, hexVal h2 with
    | some a, some b => Char.ofNat (16 * a + b) :: formDecode rest
    | _, _ => '%' :: formDecode (h1 :: h2 :: rest)
  | c :: rest => c :: formDecode rest

/-- Model of `String.prototype.split` with a one-character separator: the
(never empty) list of separated segments, empty segments included. -/
def splitOnChar (sep : Char) : List Char → List (List Char)
  | [] => [[]]
  | c :: rest =>
    if c == sep then [] :: splitOnChar sep rest
    else
      match splitOnChar sep rest with
      | [] => [[c]]
      | h :: t => (c :: h) :: t

/-- The components of a parsed URL that the source reads off the platform
`URL` object: `protocol` (with trailing colon, lowercased), `hostname`,
`pathname`, and the raw query string (without the leading `?`). -/
structure UrlParts where
  protocol : String
  hostname : String
  pathname : String
  search : String
deriving DecidableEq

/-- First character a URL scheme may start with: an ASCII letter. -/
def isSchemeStart (c : Char) : Bool :=
  ('a' ≤ c && c ≤ 'z') || ('A' ≤ c && c ≤ 'Z')

/-- Character allowed inside a URL scheme. -/
def isSchemeChar (c : Char) : Bool :=
  isSchemeStart c || ('0' ≤ c && c ≤ '9') || c == '+' || c == '-' || c == '.'

/-- Modelled from the spec: the platform WHATWG `new URL(uri)` parser, an
external collaborator not in src/, restricted to the shapes an otpauth
provisioning URI takes: `scheme:` followed either by `//` and an authority up
to `/`, `?` or `#`, then a path up to `?` or `#`, then a query — or by an
opaque path.  A missing or malformed scheme throws (modelled `none`); the
scheme is lowercased, an opaque authority keeps its case. -/
def urlParse (uri : String) : Option UrlParts :=
  let l := uri.data
  let scheme := l.takeWhile isSchemeChar
  let rest := l.drop scheme.length
  if scheme.isEmpty then none
  else if !isSchemeStart (scheme.headD ' ') then none
  else
    match rest with
    | ':' :: afterColon =>
      match afterColon with
      | '/' :: '/' :: r =>
        let authority := r.takeWhile (fun c => !(c == '/') && !(c == '?') && !(c == '#'))
        let r2 := r.drop authority.length
        let pathname := r2.takeWhile (fun c => !(c == '?') && !(c == '#'))
        let r3 := r2.drop pathname.length
        let search :=
          match r3 with
          | '?' :: q => q.takeWhile (fun c => !(c == '#'))
          | _ => []
        some { protocol := ⟨scheme.map Char.toLower ++ [':']⟩, hostname := ⟨authority⟩,
               pathname := ⟨pathname⟩, search := ⟨search⟩ }
      | r =>
        let pathname := r.takeWhile (fun c => !(c == '?') && !(c == '#'))
        let r2 := r.drop pathname.length
        let search :=
          match r2 with
          | '?' :: q => q.takeWhile (fun c => !(c == '#'))
          | _ => []
        some { protocol := ⟨scheme.map Char.toLower ++ [':']⟩, hostname := "",
               pathname := ⟨pathname⟩, search := ⟨search⟩ }
    | _ => none

/-- Modelled from the spec: query-string parsing as done by the platform
`URLSearchParams` (external collaborator not in src/): split on `&`, drop
empty pairs, split each pair at the first `=` (value empty when there is
none), form-decode names and values. -/
def parseQuery (search : String) : List (String × String) :=
  (splitOnChar '&' search.data).filterMap fun pair =>
    if pair.isEmpty then none
    else
      let k := pair.takeWhile (· != '=')
      let v := pair.drop (k.length + 1)
      some (⟨formDecode k⟩, ⟨formDecode v⟩)

/-- `URLSearchParams.get`: the first value bound to the name, `none` for
JavaScript `null`.  `has(name)` is `(getParam params name).isSome`. -/
def getParam (params : List (String × String)) (k : String) : Option String :=
  (params.find? (fun p => p.1 == k)).map (·.2)

/-- JavaScript `x || d` where `x` is a string or `null`: the default replaces
both `null` and the empty string. -/
def jsOr (o : Option String) (d : String) : String :=
  match o with
  | some v => if v = "" then d else v
  | none => d

/-- Model of `parseInt(s, 10)`: skip leading whitespace, optional sign,
longest run of decimal digits; `none` models the `NaN` returned when no
digit is found.  `parseInt` never throws. -/
def leadingDigits (l : List Char) : Option Nat :=
  let ds := l.takeWhile (fun c => '0' ≤ c && c ≤ '9')
  if ds.isEmpty then none
  else some (ds.foldl (fun a c => 10 * a + (c.toNat - 48)) 0)

/-- Model of `parseInt(s, 10)`, `none` = `NaN`. -/
def parseInt10 (s : String) : Option Int :=
  match s.data.dropWhile isJsWhitespace with
  | '-' :: rest => (leadingDigits rest).map (fun n => -(n : Int))
  | '+' :: rest => (leadingDigits rest).map (fun n => (n : Int))
  | l => (leadingDigits l).map (fun n => (n : Int))

/-- Source lines 149-155: `issuer = ''`, `account = path`, and when the path
contains a colon, `[issuer, account] = path.split(':')` — the destructuring
keeps only the first two segments of the split. -/
def pathIssuerAccount (path : String) : String × String :=
  if path.data.contains ':' then
    ((splitOnChar ':' path.data).getD 0 [] |> (⟨·⟩),
      (splitOnChar ':' path.data).getD 1 [] |> (⟨·⟩))
  else ("", path)

/-- The record `parseOtpAuthUri` returns.  `digits` and `period` are
`parseInt` results and so may be `NaN` (`none`). -/
structure OtpAccount where
  type : String
  issuer : String
  account : String
  secret : String
  algorithm : String
  digits : Option Int
  period : Option Int
deriving DecidableEq

/-- The record construction of `parseOtpAuthUri` (source lines 145-170),
after the URL has been parsed and the path percent-decoded. -/
def buildOtpAccount (host : String) (path : String)
    (params : List (String × String)) : OtpAccount :=
  let pa := pathIssuerAccount path
  let issuer :=
    match getParam params "issuer" with
    | some v => v
    | none => pa.1
  { type := host
    issuer := if issuer = "" then "Unknown" else issuer
    account := if pa.2 = "" then "Unknown" else pa.2
    secret := jsOr (getParam params "secret") ""
    algorithm := jsOr (getParam params "algorithm") "SHA1"
    digits := parseInt10 (jsOr (getParam params "digits") "6")
    period := parseInt10 (jsOr (getParam params "period") "30") }

/-- `parseOtpAuthUri` from src/modules/totp.js lines 137-174.  Everything
that can throw inside the `try` — `new URL`, the protocol check, and
`decodeURIComponent` on the path — is caught and re-reported uniformly as
`Invalid OTP Auth URI`. -/
def parseOtpAuthUri (uri : String) : Except String OtpAccount :=
  match urlParse uri with
  | none => .error "Invalid OTP Auth URI"
  | some url =>
    if url.protocol = "otpauth:" then
      match percentDecodeStrict (url.pathname.data.drop 1) with
      | none => .error "Invalid OTP Auth URI"
      | some pathChars => .ok (buildOtpAccount url.hostname ⟨pathChars⟩ (parseQuery url.search))
    else .error "Invalid OTP Auth URI"

/-! ## Account registry (storage module) -/

/-- An account record as stored by the registry.  The storage layer treats
records opaquely except for `id`, `createdAt` and `order`; the remaining
fields are the ones the popup writes. -/
structure Account where
  id : String := ""
  issuer : String := ""
  account : String := ""
  secret : String := ""
  algorithm : String := "SHA1"
  digits : Nat := 6
  period : Nat := 30
  createdAt : Nat := 0
  order : Nat := 0
deriving DecidableEq

/-- A partial update, one optional replacement per field; `{...acc,
...updates}` keeps the old value of every field the update omits. -/
structure AccountUpdates where
  id : Option String := none
  issuer : Option String := none
  account : Option String := none
  secret : Option String := none
  algorithm : Option String := none
  digits : Option Nat := none
  period : Option Nat := none
  createdAt : Option Nat := none
  order : Option Nat := none
deriving DecidableEq

/-- Shallow merge `{ ...acc, ...updates }`. -/
def applyUpdates (a : Account) (u : AccountUpdates) : Account :=
  { id := u.id.getD a.id
    issuer := u.issuer.getD a.issuer
    account := u.account.getD a.account
    secret := u.secret.getD a.secret
    algorithm := u.algorithm.getD a.algorithm
    digits := u.digits.getD a.digits
    period := u.period.getD a.period
    createdAt := u.createdAt.getD a.createdAt
    order := u.order.getD a.order }

/-- `addAccount` (storage lines 102-110): append the record with
`createdAt` set to the current time and `order` set to the current length.
The storage read/write pair is modelled as the pure transform old collection
to new collection. -/
def addAccount (accounts : List Account) (account : Account) (now : Nat) : List Account :=
  accounts ++ [{ account with createdAt := now, order := accounts.length }]

/-- `updateAccount` (storage lines 118-126): `findIndex` locates the first
record with the identifier and that single record is shallow-merged; when no
record matches nothing is written.  The first-match-then-assign loop is
written as the equivalent structural recursion. -/
def updateAccount (accounts : List Account) (id : String) (u : AccountUpdates) : List Account :=
  match accounts with
  | [] => []
  | acc :: rest =>
    if acc.id == id then applyUpdates acc u :: rest
    else acc :: updateAccount rest id u

/-- `deleteAccount` (storage lines 133-137): keep every record whose
identifier differs. -/
def deleteAccount (accounts : List Account) (id : String) : List Account :=
  accounts.filter (fun acc => acc.id != id)

/-- The import payload; `none` models an absent field, `some ""` a present
but falsy `version`.  (`accounts`, an array, is truthy whenever present.) -/
structure ImportPayload where
  version : Option String := none
  accounts : Option (List Account) := none
deriving DecidableEq

/-- JavaScript truthiness of a string field that may be absent. -/
def truthyStr : Option String → Bool
  | none => false
  | some s => s != ""

/-- The result value `importData` resolves with; on failure the source object
carries only `success` and `error`, modelled by the zero/none defaults. -/
structure ImportResult where
  success : Bool
  imported : Nat := 0
  skipped : Nat := 0
  error : Option String := none
deriving DecidableEq

/-- `importData` (storage lines 164-190): reject a payload whose `version`
or `accounts` is falsy, keep the incoming records whose identifier is not
already present, append them (writing only when at least one is new), and
report counts.  Errors are converted to a result value, never rethrown. -/
def importData (existing : List Account) (data : ImportPayload) :
    List Account × ImportResult :=
  if !truthyStr data.version || data.accounts.isNone then
    (existing, { success := false, error := some "Invalid data format" })
  else
    let accs := data.accounts.getD []
    let newAccounts := accs.filter (fun acc => !(existing.any (fun e => e.id == acc.id)))
    let st := if newAccounts.length > 0 then existing ++ newAccounts else existing
    (st, { success := true, imported := newAccounts.length,
           skipped := accs.length - newAccounts.length })

/-- The invariant claimed for the registry (spec section 3): identifiers are
unique, and order values reflect the original insertion sequence — since the
collection itself is kept in insertion order, the recorded order values must
be strictly increasing along it (in particular pairwise distinct). -/
def registryInvariant (accounts : List Account) : Prop :=
  (accounts.map Account.id).Nodup ∧ (accounts.map Account.order).Pairwise (· < ·)

/-- Replay a list of add requests (record, current time) from a starting
collection. -/
def addAll (inputs : List (Account × Nat)) : List Account :=
  inputs.foldl (fun st p => addAccount st p.1 p.2) []

/-- The collection produced by add a, add b, delete a, add c — the shortest
add/delete script that reuses an order value. -/
def c5State : List Account :=
  addAccount (deleteAccount (addAccount (addAccount [] { id := "a" } 0) { id := "b" } 1) "a")
    { id := "c" } 2

/-! ## Supporting lemmas -/

theorem natToDecimalCore_fuel (n : Nat) :
    ∀ f1 f2, n < f1 → n < f2 → natToDecimalCore f1 n = natToDecimalCore f2 n := by
  induction n using Nat.strong_induction_on with
  | _ n ih =>
    intro f1 f2 h1 h2
    cases f1 with
    | zero => omega
    | succ g1 =>
      cases f2 with
      | zero => omega
      | succ g2 =>
        simp only [natToDecimalCore]
        by_cases h : n < 10
        · simp [h]
        · rw [if_neg h, if_neg h]
          have hdiv : n / 10 < n := Nat.div_lt_self (by omega) (by omega)
          rw [ih (n / 10) hdiv g1 g2 (by omega) (by omega)]

theorem natToDecimal_eq (n : Nat) :
    natToDecimal n =
      if n < 10 then [decDigit n] else natToDecimal (n / 10) ++ [decDigit (n % 10)] := by
  unfold natToDecimal
  rw [show natToDecimalCore (n + 1) n =
      if n < 10 then [decDigit n] else natToDecimalCore n (n / 10) ++ [decDigit (n % 10)] from
    rfl]
  by_cases h : n < 10
  · rw [if_pos h, if_pos h]
  · rw [if_neg h, if_neg h]
    have hdiv : n / 10 < n := Nat.div_lt_self (by omega) (by omega)
    rw [natToDecimalCore_fuel (n / 10) n (n / 10 + 1) hdiv (by omega)]

theorem decDigit_toNat (d : Nat) (h : d < 10) : (decDigit d).toNat = 48 + d := by
  interval_cases d <;> rfl

theorem listToNat_append_digit (l : List Char) (c : Char) :
    listToNat (l ++ [c]) = 10 * listToNat l + (c.toNat - 48) := by
  unfold listToNat
  rw [List.foldl_append]
  rfl

theorem listToNat_natToDecimal (n : Nat) : listToNat (natToDecimal n) = n := by
  induction n using Nat.strong_induction_on with
  | _ n ih =>
    rw [natToDecimal_eq]
    by_cases h : n < 10
    · rw [if_pos h]
      show 10 * 0 + ((decDigit n).toNat - 48) = n
      rw [decDigit_toNat n h]
      omega
    · rw [if_neg h, listToNat_append_digit,
        ih (n / 10) (Nat.div_lt_self (by omega) (by omega)),
        decDigit_toNat (n % 10) (Nat.mod_lt n (by omega))]
      omega

theorem natToDecimal_length_le (n d : Nat) (hd : 0 < d) (hn : n < 10 ^ d) :
    (natToDecimal n).length ≤ d := by
  induction n using Nat.strong_induction_on generalizing d with
  | _ n ih =>
    rw [natToDecimal_eq]
    by_cases h : n < 10
    · rw [if_pos h]
      simpa using hd
    · rw [if_neg h]
      have hd2 : 2 ≤ d := by
        by_contra hlt
        have : d = 1 := by omega
        subst this
        simp at hn
        omega
      have hdiv : n / 10 < 10 ^ (d - 1) := by
        rw [Nat.div_lt_iff_lt_mul (by omega)]
        have : 10 ^ (d - 1) * 10 = 10 ^ d := by
          rw [← Nat.pow_succ]
          congr 1
          omega
        omega
      have := ih (n / 10) (Nat.div_lt_self (by omega) (by omega)) (d - 1) (by omega) hdiv
      simp only [List.length_append, List.length_cons, List.length_nil]
      omega

theorem padStart_length (l : List Char) (t : Nat) (c : Char) :
    (padStart l t c).length = max t l.length := by
  simp [padStart]
  omega

theorem foldl_decimal_zeros (k : Nat) :
    List.foldl (fun a c => 10 * a + (c.toNat - 48)) 0 (List.replicate k '0') = 0 := by
  induction k with
  | zero => rfl
  | succ m ih => simpa [List.replicate_succ] using ih

theorem listToNat_padStart_zeros (l : List Char) (t : Nat) :
    listToNat (padStart l t '0') = listToNat l := by
  unfold padStart listToNat
  rw [List.foldl_append, foldl_decimal_zeros]

theorem shiftLeft_or_eq_add (a b i : Nat) (hb : b < 2 ^ i) :
    (a <<< i) ||| b = a * 2 ^ i + b := by
  rw [Nat.shiftLeft_eq, Nat.mul_comm a (2 ^ i), ← Nat.mul_add_lt_is_or hb a]

theorem and_mask_byte (b : Nat) (h : b < 256) : b &&& 0xff = b := by
  have h8 : b < 2 ^ 8 := by omega
  have := Nat.and_pow_two_sub_one_of_lt_two_pow h8
  norm_num at this
  exact this

theorem getD_lt_of_bytes (digest : List Nat) (hb : ∀ b ∈ digest, b < 256) (i : Nat) :
    digest.getD i 0 < 256 := by
  rcases hg : digest[i]? with _ | a
  · simp [List.getD_eq_getElem?_getD, hg]
  · have ha : a ∈ digest := List.getElem?_mem hg
    rw [List.getD_eq_getElem?_getD, hg]
    exact hb a ha

theorem dynamicTruncate_eq_claimBinary (digest : List Nat) (hlen : digest.length = 20)
    (hb : ∀ b ∈ digest, b < 256) : dynamicTruncate digest = claimBinary digest := by
  simp only [dynamicTruncate, claimBinary]
  rw [hlen]
  rw [show (20 : Nat) - 1 = 19 from rfl]
  have h1 := getD_lt_of_bytes digest hb ((digest.getD 19 0 &&& 0x0f) + 1)
  have h2 := getD_lt_of_bytes digest hb ((digest.getD 19 0 &&& 0x0f) + 2)
  have h3 := getD_lt_of_bytes digest hb ((digest.getD 19 0 &&& 0x0f) + 3)
  rw [and_mask_byte _ h1, and_mask_byte _ h2, and_mask_byte _ h3]
  rw [Nat.lor_assoc, Nat.lor_assoc]
  have e8 : (2 : Nat) ^ 8 = 256 := by norm_num
  have e16 : (2 : Nat) ^ 16 = 65536 := by norm_num
  have hD : digest.getD ((digest.getD 19 0 &&& 0x0f) + 3) 0 < 2 ^ 8 := by omega
  rw [shiftLeft_or_eq_add _ _ 8 hD]
  have hCD :
      digest.getD ((digest.getD 19 0 &&& 0x0f) + 2) 0 * 2 ^ 8 +
        digest.getD ((digest.getD 19 0 &&& 0x0f) + 3) 0 < 2 ^ 16 := by
    omega
  rw [shiftLeft_or_eq_add _ _ 16 hCD]
  have e24 : (2 : Nat) ^ 24 = 16777216 := by norm_num
  have hBCD :
      digest.getD ((digest.getD 19 0 &&& 0x0f) + 1) 0 * 2 ^ 16 +
        (digest.getD ((digest.getD 19 0 &&& 0x0f) + 2) 0 * 2 ^ 8 +
          digest.getD ((digest.getD 19 0 &&& 0x0f) + 3) 0) < 2 ^ 24 := by
    omega
  rw [shiftLeft_or_eq_add _ _ 24 hBCD]
  ring

theorem claimBinary_lt (digest : List Nat) (hb : ∀ b ∈ digest, b < 256) :
    claimBinary digest < 2 ^ 31 := by
  simp only [claimBinary]
  have h0 : digest.getD (digest.getD 19 0 &&& 0x0f) 0 &&& 0x7f ≤ 0x7f := Nat.and_le_right
  have h1 := getD_lt_of_bytes digest hb ((digest.getD 19 0 &&& 0x0f) + 1)
  have h2 := getD_lt_of_bytes digest hb ((digest.getD 19 0 &&& 0x0f) + 2)
  have h3 := getD_lt_of_bytes digest hb ((digest.getD 19 0 &&& 0x0f) + 3)
  have e8 : (2 : Nat) ^ 8 = 256 := by norm_num
  have e16 : (2 : Nat) ^ 16 = 65536 := by norm_num
  have e24 : (2 : Nat) ^ 24 = 16777216 := by norm_num
  have e31 : (2 : Nat) ^ 31 = 2147483648 := by norm_num
  omega

/-! ## C7: remaining seconds in the current step -/

/-- C7: for every positive period, `getRemainingSeconds` equals
`period - (currentUnixSeconds mod period)` and always lies in `[1, period]`;
it is never 0 — when the modulo is 0 the result is a full period. -/
theorem getRemainingSeconds_range (now period : Nat) (h : 0 < period) :
    getRemainingSeconds now period = period - now % period ∧
      1 ≤ getRemainingSeconds now period ∧ getRemainingSeconds now period ≤ period := by
  have hm : now % period < period := Nat.mod_lt now h
  refine ⟨rfl, ?_, ?_⟩ <;> (unfold getRemainingSeconds; omega)

/-- Witness for C7 at `now = 100`, `period = 30`. -/
theorem getRemainingSeconds_range_witness :
    getRemainingSeconds 100 30 = 30 - 100 % 30 ∧
      1 ≤ getRemainingSeconds 100 30 ∧ getRemainingSeconds 100 30 ≤ 30 :=
  getRemainingSeconds_range 100 30 (by decide)

/-! ## C1: no validation of non-positive digits or period -/

/-- C1 counterexample: `generateTOTP` called with `digits = 0` (a
non-positive digit count) does not fail at all — it returns the one-character
code string `"0"`, a malformed code, instead of an InvalidParameter error. -/
theorem generateTOTP_nonpositive_digits_cex :
    generateTOTP zeroHmac "" { period := 30, digits := 0, timestamp := 0 } = Except.ok "0" :=
  rfl

/-- C1 amended: `generateTOTP` performs no parameter validation.  For every
HMAC collaborator, every decodable secret and every period and timestamp, a
call with `digits = 0` succeeds and returns the string `"0"` (whose length is
not the requested 0 digits) rather than failing with InvalidParameter; the
only failure mode of the function is a Base32 decoding error. -/
theorem generateTOTP_zero_digits (hmacF : List Nat → List Nat → List Nat)
    (secret : String) (period ts : Nat) (key : List Nat)
    (h : base32Decode secret = .ok key) :
    generateTOTP hmacF secret { period := period, digits := 0, timestamp := ts } =
      Except.ok "0" := by
  unfold generateTOTP
  rw [h]
  simp only [pow_zero, Nat.mod_one]
  rfl

/-- Witness for C1's amended theorem at a concrete collaborator and input. -/
theorem generateTOTP_zero_digits_witness :
    base32Decode "" = Except.ok [] ∧
      generateTOTP zeroHmac "" { period := 60, digits := 0, timestamp := 123 } =
        Except.ok "0" :=
  ⟨rfl, generateTOTP_zero_digits zeroHmac "" 60 123 [] rfl⟩

/-! ## C4: dynamic truncation and code formatting -/

/-- C4: for every successful `generateTOTP` call with positive digits (any
HMAC collaborator returning a 20-byte digest), the returned string is the
left-zero-padded decimal of `binary mod 10^digits`, has exactly `digits`
characters, its numeric value is `binary mod 10^digits`, and `binary` is the
claim's dynamic truncation of the digest — `offset = digest[19] & 0x0F`,
bytes `digest[offset..offset+3]`, first masked with `0x7F`, combined
big-endian into a non-negative 31-bit integer. -/
theorem generateTOTP_dynamic_truncation (hmacF : List Nat → List Nat → List Nat)
    (secret : String) (opts : TotpOptions) (key digest : List Nat)
    (hkey : base32Decode secret = .ok key)
    (hdig : 0 < opts.digits)
    (hd : hmacF key (numberToBytes (opts.timestamp / 1000 / opts.period)) = digest)
    (hlen : digest.length = 20)
    (hb : ∀ b ∈ digest, b < 256) :
    generateTOTP hmacF secret opts =
        Except.ok ⟨padStart (natToDecimal (claimBinary digest % 10 ^ opts.digits))
          opts.digits '0'⟩ ∧
      (padStart (natToDecimal (claimBinary digest % 10 ^ opts.digits)) opts.digits '0').length =
        opts.digits ∧
      listToNat (padStart (natToDecimal (claimBinary digest % 10 ^ opts.digits))
          opts.digits '0') =
        claimBinary digest % 10 ^ opts.digits ∧
      claimBinary digest < 2 ^ 31 := by
  have hmod : claimBinary digest % 10 ^ opts.digits < 10 ^ opts.digits :=
    Nat.mod_lt _ (Nat.pos_pow_of_pos _ (by omega))
  refine ⟨?_, ?_, ?_, claimBinary_lt digest hb⟩
  · unfold generateTOTP
    rw [hkey]
    simp only
    rw [hd, dynamicTruncate_eq_claimBinary digest hlen hb]
  · rw [padStart_length]
    have := natToDecimal_length_le _ opts.digits hdig hmod
    omega
  · rw [listToNat_padStart_zeros, listToNat_natToDecimal]

/-- Witness for C4 with the digest `[0, 1, ..., 19]`: the offset nibble is 3,
the masked big-endian combination of bytes 3..6 is 50595078, and the code for
6 digits is `"595078"`. -/
theorem generateTOTP_dynamic_truncation_witness :
    generateTOTP (fun _ _ => List.range 20) "" { period := 30, digits := 6, timestamp := 0 } =
        Except.ok ⟨padStart (natToDecimal (claimBinary (List.range 20) % 10 ^ 6)) 6 '0'⟩ ∧
      (padStart (natToDecimal (claimBinary (List.range 20) % 10 ^ 6)) 6 '0').length = 6 ∧
      listToNat (padStart (natToDecimal (claimBinary (List.range 20) % 10 ^ 6)) 6 '0') =
        claimBinary (List.range 20) % 10 ^ 6 ∧
      claimBinary (List.range 20) < 2 ^ 31 :=
  generateTOTP_dynamic_truncation (fun _ _ => List.range 20) "" _ [] (List.range 20)
    rfl (by decide) rfl (by decide) (by decide)

/-! ## C6: Base32 failure characterisation -/

theorem charIndexAux_eq_none_iff (c : Char) :
    ∀ (l : List Char) (i : Nat), charIndexAux c l i = none ↔ c ∉ l := by
  intro l
  induction l with
  | nil => simp [charIndexAux]
  | cons x xs ih =>
    intro i
    by_cases hx : x == c
    · have : x = c := by simpa using hx
      subst this
      simp [charIndexAux]
    · have hne : ¬c = x := by
        intro h
        exact hx (by simp [h])
      simp [charIndexAux, hx, hne, ih]

theorem charIndex_eq_none_iff (c : Char) : charIndex c = none ↔ c ∉ BASE32_CHARS :=
  charIndexAux_eq_none_iff c BASE32_CHARS 0

theorem b32DecodeLoop_ok_of_all (l : List Char) :
    ∀ (bits value : Nat) (out : List Nat), (∀ c ∈ l, c ∈ BASE32_CHARS) →
      ∃ r, b32DecodeLoop l bits value out = .ok r := by
  induction l with
  | nil => exact fun bits value out _ => ⟨out.reverse, rfl⟩
  | cons c rest ih =>
    intro bits value out hall
    have hc : c ∈ BASE32_CHARS := hall c (by simp)
    rcases hidx : charIndex c with _ | ci
    · exact absurd ((charIndex_eq_none_iff c).mp hidx) (by simpa using hc)
    · have hrest : ∀ d ∈ rest, d ∈ BASE32_CHARS := fun d hd => hall d (by simp [hd])
      simp only [b32DecodeLoop, hidx]
      split
      · exact ih _ _ _ hrest
      · exact ih _ _ _ hrest

theorem b32DecodeLoop_error_of_bad (l : List Char) :
    ∀ (bits value : Nat) (out : List Nat), (∃ c ∈ l, c ∉ BASE32_CHARS) →
      ∃ c, b32DecodeLoop l bits value out = .error (Base32Error.invalidChar c) ∧
        c ∈ l ∧ c ∉ BASE32_CHARS := by
  induction l with
  | nil => rintro _ _ _ ⟨c, hc, _⟩; simp at hc
  | cons c rest ih =>
    intro bits value out hbad
    rcases hidx : charIndex c with _ | ci
    · exact ⟨c, by simp [b32DecodeLoop, hidx], by simp, (charIndex_eq_none_iff c).mp hidx⟩
    · have hcin : c ∈ BASE32_CHARS := by
        by_contra hcn
        rw [← charIndex_eq_none_iff c] at hcn
        simp [hidx] at hcn
      have hrest : ∃ d ∈ rest, d ∉ BASE32_CHARS := by
        rcases hbad with ⟨d, hdmem, hdbad⟩
        rcases List.mem_cons.mp hdmem with heq | hmem
        · exact absurd (heq ▸ hcin) hdbad
        · exact ⟨d, hmem, hdbad⟩
      simp only [b32DecodeLoop, hidx]
      split
      · rcases ih _ _ _ hrest with ⟨d, heq, hmem, hbadd⟩
        exact ⟨d, heq, by simp [hmem], hbadd⟩
      · rcases ih _ _ _ hrest with ⟨d, heq, hmem, hbadd⟩
        exact ⟨d, heq, by simp [hmem], hbadd⟩

theorem b32DecodeLoop_error_elim (l : List Char) :
    ∀ (bits value : Nat) (out : List Nat) (c : Char),
      b32DecodeLoop l bits value out = .error (Base32Error.invalidChar c) →
        c ∈ l ∧ c ∉ BASE32_CHARS := by
  induction l with
  | nil => intro _ _ _ _ h; simp [b32DecodeLoop] at h
  | cons x rest ih =>
    intro bits value out c h
    rcases hidx : charIndex x with _ | ci
    · simp only [b32DecodeLoop, hidx] at h
      have : x = c := by simpa using h
      subst this
      exact ⟨by simp, (charIndex_eq_none_iff x).mp hidx⟩
    · simp only [b32DecodeLoop, hidx] at h
      split at h
      · rcases ih _ _ _ _ h with ⟨hmem, hbad⟩
        exact ⟨by simp [hmem], hbad⟩
      · rcases ih _ _ _ _ h with ⟨hmem, hbad⟩
        exact ⟨by simp [hmem], hbad⟩

/-- C6: `base32Decode` fails if and only if the input, after normalization
(whitespace stripped, uppercased, trailing `=` removed), contains a character
outside `A–Z2–7`; every raised error identifies such an offending character;
and an input that is empty after normalization succeeds with a zero-length
byte sequence. -/
theorem base32Decode_invalid_iff (s : String) :
    ((∃ e, base32Decode s = .error e) ↔ ∃ c ∈ b32Normalize s, c ∉ BASE32_CHARS) ∧
      (∀ c, base32Decode s = .error (Base32Error.invalidChar c) →
        c ∈ b32Normalize s ∧ c ∉ BASE32_CHARS) ∧
      (b32Normalize s = [] → base32Decode s = .ok []) := by
  refine ⟨⟨?_, ?_⟩, ?_, ?_⟩
  · rintro ⟨e, he⟩
    rcases e with ⟨c⟩
    rcases b32DecodeLoop_error_elim (b32Normalize s) 0 0 [] c he with ⟨hmem, hbad⟩
    exact ⟨c, hmem, hbad⟩
  · intro hbad
    rcases b32DecodeLoop_error_of_bad (b32Normalize s) 0 0 [] hbad with ⟨c, heq, _, _⟩
    exact ⟨Base32Error.invalidChar c, heq⟩
  · exact fun c => b32DecodeLoop_error_elim (b32Normalize s) 0 0 [] c
  · intro h
    unfold base32Decode
    rw [h]
    rfl

/-- Witness for C6: `"8"` (invalid character) fails, `"=="` (empty after
normalization) decodes to the empty byte sequence. -/
theorem base32Decode_invalid_iff_witness :
    (∃ e, base32Decode "8" = .error e) ∧ base32Decode "==" = .ok [] :=
  ⟨(base32Decode_invalid_iff "8").1.mpr ⟨'8', by decide, by decide⟩,
    (base32Decode_invalid_iff "==").2.2 (by decide)⟩

/-! ## C2: non-numeric digits and period parameters -/

/-- C2 counterexample: a URI whose `digits` query parameter is the
non-numeric string `"x"` does not fail with InvalidUri — `parseInt` yields
`NaN` (modelled `none`) without raising anything, and parse returns a record
whose `digits` field is not an integer. -/
theorem parseOtpAuthUri_nonnumeric_digits_cex :
    parseOtpAuthUri "otpauth://totp/a?digits=x" =
      Except.ok { type := "totp", issuer := "Unknown", account := "a", secret := "",
                  algorithm := "SHA1", digits := none, period := some 30 } :=
  rfl

/-- C2 amended: integer parsing of `digits`/`period` can never make parse
fail.  Whenever the URI is structurally accepted (the URL parses, the scheme
is `otpauth:` and the path percent-decodes), `parseOtpAuthUri` returns a
record, and a non-numeric `digits` parameter shows up as a `NaN` (`none`)
`digits` field in that record rather than as an InvalidUri error. -/
theorem parseOtpAuthUri_nan_digits (uri : String) (url : UrlParts) (pathChars : List Char)
    (h1 : urlParse uri = some url) (h2 : url.protocol = "otpauth:")
    (h3 : percentDecodeStrict (url.pathname.data.drop 1) = some pathChars) :
    parseOtpAuthUri uri =
        Except.ok (buildOtpAccount url.hostname ⟨pathChars⟩ (parseQuery url.search)) ∧
      (parseInt10 (jsOr (getParam (parseQuery url.search) "digits") "6") = none →
        (buildOtpAccount url.hostname ⟨pathChars⟩ (parseQuery url.search)).digits = none) := by
  constructor
  · unfold parseOtpAuthUri
    rw [h1]
    simp only
    rw [if_pos h2, h3]
  · intro h
    simp only [buildOtpAccount]
    exact h

/-- Witness for C2's amended theorem at the counterexample URI. -/
theorem parseOtpAuthUri_nan_digits_witness :
    parseOtpAuthUri "otpauth://totp/a?digits=x" =
        Except.ok (buildOtpAccount "totp" "a" (parseQuery "digits=x")) ∧
      (parseInt10 (jsOr (getParam (parseQuery "digits=x") "digits") "6") = none →
        (buildOtpAccount "totp" "a" (parseQuery "digits=x")).digits = none) :=
  parseOtpAuthUri_nan_digits "otpauth://totp/a?digits=x"
    { protocol := "otpauth:", hostname := "totp", pathname := "/a", search := "digits=x" }
    "a".data rfl rfl rfl

/-! ## C3: path splitting at colons -/

/-- C3 counterexample: for the path `A:b:c` the account label is only `"b"`,
the text between the first and second colon — not the entire remainder
`"b:c"` after the first colon. -/
theorem parseOtpAuthUri_colon_path_cex :
    parseOtpAuthUri "otpauth://totp/A:b:c" =
        Except.ok { type := "totp", issuer := "A", account := "b", secret := "",
                    algorithm := "SHA1", digits := some 6, period := some 30 } ∧
      ("b" : String) ≠ "b:c" :=
  ⟨rfl, by decide⟩

theorem splitOnChar_ne_nil (sep : Char) (l : List Char) : splitOnChar sep l ≠ [] := by
  cases l with
  | nil => simp [splitOnChar]
  | cons c rest =>
    by_cases h : c == sep
    · simp [splitOnChar, h]
    · rcases hsp : splitOnChar sep rest with _ | ⟨hd, tl⟩ <;> simp [splitOnChar, h, hsp]

theorem splitOnChar_getD_zero (sep : Char) (l : List Char) :
    (splitOnChar sep l).getD 0 [] = l.takeWhile (· != sep) := by
  induction l with
  | nil => rfl
  | cons c rest ih =>
    by_cases hceq : c = sep
    · subst hceq
      rw [show splitOnChar c (c :: rest) = [] :: splitOnChar c rest from by simp [splitOnChar]]
      rw [List.takeWhile_cons_of_neg (by simp)]
      rfl
    · rcases hsp : splitOnChar sep rest with _ | ⟨hd, tl⟩
      · exact absurd hsp (splitOnChar_ne_nil sep rest)
      · rw [hsp] at ih
        rw [show splitOnChar sep (c :: rest) = (c :: hd) :: tl from by
          simp [splitOnChar, hceq, hsp]]
        rw [List.takeWhile_cons_of_pos (by simp [hceq])]
        rw [List.getD_cons_zero] at ih ⊢
        rw [ih]

theorem splitOnChar_getD_one (sep : Char) (l : List Char) (hc : l.contains sep = true) :
    (splitOnChar sep l).getD 1 [] = ((l.dropWhile (· != sep)).tail).takeWhile (· != sep) := by
  induction l with
  | nil => simp at hc
  | cons c rest ih =>
    by_cases hceq : c = sep
    · subst hceq
      rw [show splitOnChar c (c :: rest) = [] :: splitOnChar c rest from by simp [splitOnChar]]
      rw [List.dropWhile_cons_of_neg (by simp), List.tail_cons, List.getD_cons_succ]
      exact splitOnChar_getD_zero c rest
    · have hrest : rest.contains sep = true := by
        simp only [List.contains_cons] at hc
        rcases Bool.or_eq_true_iff.mp hc with h1 | h1
        · have hsc : sep = c := by simpa using h1
          exact absurd hsc.symm hceq
        · exact h1
      rcases hsp : splitOnChar sep rest with _ | ⟨hd, tl⟩
      · exact absurd hsp (splitOnChar_ne_nil sep rest)
      · rw [hsp] at ih
        rw [show splitOnChar sep (c :: rest) = (c :: hd) :: tl from by
          simp [splitOnChar, hceq, hsp]]
        rw [List.dropWhile_cons_of_pos (by simp [hceq]), List.getD_cons_succ]
        rw [List.getD_cons_succ] at ih
        exact ih hrest

/-- C3 amended: when the percent-decoded path contains a colon, the issuer is
the text before the first colon, but the account label is only the text
between the first colon and the following colon or end — any text after a
second colon is dropped by the destructuring of `split(':')`.  When the path
contains no colon, the whole path is the account label and the path-derived
issuer is empty. -/
theorem pathIssuerAccount_split (path : String) :
    (path.data.contains ':' = true →
      pathIssuerAccount path =
        (⟨path.data.takeWhile (· != ':')⟩,
          ⟨((path.data.dropWhile (· != ':')).tail).takeWhile (· != ':')⟩)) ∧
      (path.data.contains ':' = false → pathIssuerAccount path = ("", path)) := by
  constructor
  · intro h
    unfold pathIssuerAccount
    rw [if_pos h, splitOnChar_getD_zero, splitOnChar_getD_one ':' path.data h]
  · intro h
    unfold pathIssuerAccount
    rw [if_neg (show ¬(path.data.contains ':' = true) by rw [h]; exact Bool.false_ne_true)]

/-- Witness for C3's amended theorem at the path of the counterexample. -/
theorem pathIssuerAccount_split_witness :
    pathIssuerAccount "A:b:c" =
      (⟨"A:b:c".data.takeWhile (· != ':')⟩,
        ⟨(("A:b:c".data.dropWhile (· != ':')).tail).takeWhile (· != ':')⟩) :=
  (pathIssuerAccount_split "A:b:c").1 (by decide)

/-! ## C9: update on a missing identifier is a silent no-op -/

/-- C9: for every collection and every identifier not present in it,
`updateAccount` returns the collection unchanged — `findIndex` misses, no
record is touched, and no error is ever raised (the embedding is total). -/
theorem updateAccount_missing_id (accounts : List Account) (id : String)
    (u : AccountUpdates) (h : ∀ acc ∈ accounts, acc.id ≠ id) :
    updateAccount accounts id u = accounts := by
  induction accounts with
  | nil => rfl
  | cons acc rest ih =>
    have hacc : acc.id ≠ id := h acc (by simp)
    have hbeq : (acc.id == id) = false := by simpa using hacc
    simp only [updateAccount, hbeq, Bool.false_eq_true, if_false]
    rw [ih (fun a ha => h a (by simp [ha]))]

/-- Witness for C9 on a one-record collection and an absent identifier. -/
theorem updateAccount_missing_id_witness :
    updateAccount [{ id := "a" }] "b" {} = [{ id := "a" }] :=
  updateAccount_missing_id [{ id := "a" }] "b" {} (by decide)

/-! ## C10: truthiness checks in import -/

/-- C10: `importData` tests `version` and `accounts` by truthiness, not by
presence — a present-but-falsy `version` (the empty string) fails with the
same InvalidFormat result as an absent one, while a present `accounts` that
is an empty array (truthy) succeeds with `imported = 0`. -/
theorem importData_truthiness (existing accs : List Account) :
    importData existing { version := some "", accounts := some accs } =
        importData existing { version := none, accounts := some accs } ∧
      importData existing { version := some "", accounts := some accs } =
        (existing, { success := false, error := some "Invalid data format" }) ∧
      importData existing { version := some "1.0", accounts := some [] } =
        (existing, { success := true, imported := 0, skipped := 0 }) := by
  refine ⟨?_, ?_, ?_⟩ <;> simp [importData, truthyStr]

/-- Witness for C10 at the empty collection. -/
theorem importData_truthiness_witness :
    importData [] { version := some "", accounts := some [] } =
        importData [] { version := none, accounts := some [] } ∧
      importData [] { version := some "", accounts := some [] } =
        ([], { success := false, error := some "Invalid data format" }) ∧
      importData [] { version := some "1.0", accounts := some [] } =
        ([], { success := true, imported := 0, skipped := 0 }) :=
  importData_truthiness [] []

/-! ## C8: import idempotence -/

/-- C8: once a payload has been imported successfully, importing it again
imports 0 records, reports every payload account as skipped, and leaves the
collection exactly as it was. -/
theorem importData_idempotent (existing : List Account) (data : ImportPayload)
    (st1 : List Account) (r1 : ImportResult) (accs : List Account)
    (hacc : data.accounts = some accs)
    (h1 : importData existing data = (st1, r1))
    (hs : r1.success = true) :
    importData st1 data = (st1, { success := true, imported := 0, skipped := accs.length }) := by
  unfold importData at h1 ⊢
  rw [hacc] at h1 ⊢
  by_cases hv : truthyStr data.version
  · simp only [hv, Option.isNone_some, Bool.not_true, Bool.false_or, Option.getD_some,
      Bool.false_eq_true, if_false] at h1 ⊢
    have hst1 : st1 =
        existing ++ accs.filter (fun acc => !(existing.any (fun e => e.id == acc.id))) := by
      rcases h1 with h1
      have := congrArg Prod.fst h1
      simp only at this
      rw [← this]
      split
      · rfl
      · next hlen =>
        have : accs.filter (fun acc => !(existing.any (fun e => e.id == acc.id))) = [] := by
          rcases hfe : accs.filter (fun acc => !(existing.any (fun e => e.id == acc.id))) with
            _ | ⟨x, xs⟩
          · exact hfe
          · rw [hfe] at hlen
            simp at hlen
        rw [this, List.append_nil]
    have hall : ∀ acc ∈ accs, st1.any (fun e => e.id == acc.id) = true := by
      intro acc hmem
      rw [hst1, List.any_append]
      by_cases he : existing.any (fun e => e.id == acc.id)
      · simp [he]
      · have hin : acc ∈ accs.filter (fun acc => !(existing.any (fun e => e.id == acc.id))) :=
          List.mem_filter.mpr ⟨hmem, by simp [he]⟩
        have : (accs.filter
            (fun acc => !(existing.any (fun e => e.id == acc.id)))).any
              (fun e => e.id == acc.id) = true :=
          List.any_eq_true.mpr ⟨acc, hin, by simp⟩
        simp [this]
    have hfilter : accs.filter (fun acc => !(st1.any (fun e => e.id == acc.id))) = [] :=
      List.filter_eq_nil_iff.mpr (fun a ha => by simp [hall a ha])
    rw [hfilter]
    simp
  · simp only [hv, Bool.not_false, Bool.true_or, if_true] at h1
    rcases h1 with h1
    have := congrArg (fun p => p.2.success) h1
    simp at this
    rw [hs] at this
    exact absurd this (by simp)

/-- Witness for C8: re-importing a one-account payload that was already
imported into the empty registry. -/
theorem importData_idempotent_witness :
    importData [{ id := "a" }] { version := some "1.0", accounts := some [{ id := "a" }] } =
      ([{ id := "a" }], { success := true, imported := 0, skipped := 1 }) :=
  importData_idempotent [] { version := some "1.0", accounts := some [{ id := "a" }] }
    [{ id := "a" }] { success := true, imported := 1, skipped := 0 } [{ id := "a" }]
    rfl rfl rfl

/-! ## C5: the registry invariant under add and delete -/

/-- C5 counterexample: after add a, add b, delete a, add c (all with distinct
identifiers) the two remaining records both carry order value 1 — `add`
assigns `order = current length`, so after a deletion an existing order value
is reused and the order values no longer reflect the insertion sequence. -/
theorem registryInvariant_cex : ¬ registryInvariant c5State := by
  intro h
  rcases h with ⟨_, hord⟩
  have : c5State.map Account.order = [1, 1] := rfl
  rw [this] at hord
  rcases hord with _ | ⟨h11, _⟩
  exact absurd (h11 1 (by simp)) (by omega)

theorem addAccount_map_id (st : List Account) (a : Account) (t : Nat) :
    (addAccount st a t).map Account.id = st.map Account.id ++ [a.id] := by
  simp [addAccount]

theorem addAccount_map_order (st : List Account) (a : Account) (t : Nat) :
    (addAccount st a t).map Account.order = st.map Account.order ++ [st.length] := by
  simp [addAccount]

theorem addAccount_length (st : List Account) (a : Account) (t : Nat) :
    (addAccount st a t).length = st.length + 1 := by
  simp [addAccount]

theorem addAll_go_ids (inputs : List (Account × Nat)) :
    ∀ st : List Account,
      (inputs.foldl (fun st p => addAccount st p.1 p.2) st).map Account.id =
        st.map Account.id ++ inputs.map (fun p => p.1.id) := by
  induction inputs with
  | nil => simp
  | cons x xs ih =>
    intro st
    rw [List.foldl_cons, ih (addAccount st x.1 x.2), addAccount_map_id]
    simp

theorem addAll_go_orders (inputs : List (Account × Nat)) :
    ∀ st : List Account,
      (inputs.foldl (fun st p => addAccount st p.1 p.2) st).map Account.order =
        st.map Account.order ++ List.range' st.length inputs.length := by
  induction inputs with
  | nil => simp
  | cons x xs ih =>
    intro st
    rw [List.foldl_cons, ih (addAccount st x.1 x.2), addAccount_map_order, addAccount_length,
      List.length_cons, List.range'_succ]
    simp

/-- C5 amended: the claimed invariant does hold for every collection built by
add operations alone (with pairwise-distinct incoming identifiers) starting
from the empty registry — identifiers stay unique and the record at position
`i` has order value exactly `i`.  It is not preserved once delete is
interleaved (see the counterexample), and `add` itself never enforces
identifier uniqueness. -/
theorem registryInvariant_add_only (inputs : List (Account × Nat))
    (h : (inputs.map (fun p => p.1.id)).Nodup) :
    registryInvariant (addAll inputs) ∧
      (addAll inputs).map Account.order = List.range inputs.length := by
  have hids := addAll_go_ids inputs []
  have hords := addAll_go_orders inputs []
  simp only [List.map_nil, List.nil_append, List.length_nil] at hids hords
  have hrange : List.range' 0 inputs.length = List.range inputs.length :=
    (List.range_eq_range' _).symm
  unfold addAll
  refine ⟨⟨?_, ?_⟩, ?_⟩
  · rw [hids]; exact h
  · rw [hords, hrange]; exact List.pairwise_lt_range _
  · rw [hords, hrange]

/-- Witness for C5's amended theorem on a two-record add-only history. -/
theorem registryInvariant_add_only_witness :
    registryInvariant (addAll [({ id := "a" }, 5), ({ id := "b" }, 6)]) ∧
      (addAll [({ id := "a" }, 5), ({ id := "b" }, 6)]).map Account.order = List.range 2 :=
  registryInvariant_add_only [({ id := "a" }, 5), ({ id := "b" }, 6)] (by decide)

end Omnitool
